import Mathlib

/-!
Verification of the CalendarAIAgent core components against their
natural-language specification.  The JavaScript sources are shallowly
embedded: pure functions become Lean functions, the in-memory maps become
explicit state values, JavaScript truthiness and dynamic typing are made
explicit where the control flow depends on them, and code that can throw is
embedded in the `Except` monad.
-/

namespace CalendarAgent

/-! ## Task identity and the task reconciliation cache (taskCache module)

A preparation task is a record of optional string fields; absent fields are
`none`.  JavaScript truthiness of such a field: absent / null / empty string
are falsy. -/

structure Task where
  id : Option String := none
  task : Option String := none
  title : Option String := none
  category : Option String := none
  description : Option String := none
  estimatedTime : Option String := none
deriving DecidableEq, Repr

/-- JavaScript truthiness of an optional string field. -/
def truthy : Option String → Bool
  | none => false
  | some s => s != ""

/-- Embedding of `String.prototype.trim`: strip whitespace from both ends. -/
def jsTrim (s : String) : String :=
  String.mk (((s.data.dropWhile Char.isWhitespace).reverse.dropWhile Char.isWhitespace).reverse)

/-- Embedding of `String.prototype.toLowerCase` (ASCII case folding). -/
def jsToLower (s : String) : String :=
  String.mk (s.data.map Char.toLower)

/-- One part of the fallback key: `(task.field || '').toString().trim().toLowerCase()`. -/
def fallbackPart (o : Option String) : String :=
  jsToLower (jsTrim (o.getD ""))

/-- Embedding of `taskKey` from the task cache module: explicit id first, then
the `task` text, then the `title` text (both trimmed and lowercased), else the
composite `category|description|estimatedTime` fallback; `null` input gives a
`null` key. -/
def taskKey : Option Task → Option String
  | none => none
  | some t =>
    if truthy t.id then
      some ("id:" ++ t.id.getD "")
    else if truthy t.task then
      some ("task:" ++ jsToLower (jsTrim (t.task.getD "")))
    else if truthy t.title then
      some ("title:" ++ jsToLower (jsTrim (t.title.getD "")))
    else
      some ("fallback:" ++ fallbackPart t.category ++ "|" ++ fallbackPart t.description
        ++ "|" ++ fallbackPart t.estimatedTime)

/-- One cache entry: `{ remainingTasks, completedTaskKeys, createdAt, updatedAt }`.
The JavaScript `Set` of completed keys is a duplicate-free insertion-ordered
list; only membership is ever observed. -/
structure TaskEntry where
  remainingTasks : List Task
  completedTaskKeys : List String
  createdAt : Nat
  updatedAt : Nat
deriving DecidableEq, Repr

/-- The `Map<eventId, entry>` of the task cache, embedded as a partial map. -/
def TaskCache : Type := String → Option TaskEntry

def emptyTaskCache : TaskCache := fun _ => none

def cacheSet (c : TaskCache) (k : String) (e : TaskEntry) : TaskCache :=
  fun k2 => if k2 = k then some e else c k2

def cacheDelete (c : TaskCache) (k : String) : TaskCache :=
  fun k2 => if k2 = k then none else c k2

/-- The filter predicate used by both `setRemainingTasks` and
`markTasksCompleted`: `identifier ? !completedTaskKeys.has(identifier) : true`. -/
def keepTask (keys : List String) (t : Task) : Bool :=
  match taskKey (some t) with
  | some k => decide (k ∉ keys)
  | none => true

def keyFilter (keys : List String) (tasks : List Task) : List Task :=
  tasks.filter (keepTask keys)

/-- `Set.add`: append the key when it is not already present. -/
def addKey (keys : List String) (k : String) : List String :=
  if k ∈ keys then keys else keys ++ [k]

/-- The `tasks.forEach` loop of `markTasksCompleted`: add each task's derived
key (when non-null) to the completed-key set. -/
def addTaskKeys (keys : List String) (tasks : List Task) : List String :=
  tasks.foldl (fun ks t =>
    match taskKey (some t) with
    | some k => addKey ks k
    | none => ks) keys

/-- `TaskCache.setRemainingTasks(eventId, preparationTasks)`.  A falsy event id
is a no-op.  An existing entry keeps its completed keys and stores the fresh
tasks filtered against them; a fresh entry stores the tasks unfiltered with an
empty completed-key set.  (`deepCloneTasks` is the identity here: tasks are
immutable values.)  `Date.now()` is passed in as `now`. -/
def setRemainingTasks (c : TaskCache) (eventId : String) (tasks : List Task) (now : Nat) :
    TaskCache :=
  if eventId = "" then c
  else
    match c eventId with
    | some entry =>
      cacheSet c eventId
        { entry with
          remainingTasks := keyFilter entry.completedTaskKeys tasks
          updatedAt := now }
    | none =>
      cacheSet c eventId
        { remainingTasks := tasks
          completedTaskKeys := []
          createdAt := now
          updatedAt := now }

/-- The entry mutation performed by `markTasksCompleted` once the entry is at
hand: add every task's key to the completed set, then re-filter the remaining
list against the enlarged set. -/
def markEntry (entry : TaskEntry) (tasks : List Task) (now : Nat) : TaskEntry :=
  { entry with
    completedTaskKeys := addTaskKeys entry.completedTaskKeys tasks
    remainingTasks := keyFilter (addTaskKeys entry.completedTaskKeys tasks) entry.remainingTasks
    updatedAt := now }

/-- `TaskCache.markTasksCompleted(eventId, tasks)`.  Falsy id or empty task
list is a no-op; a missing entry is first created empty; then every task's
key is added to the completed set and the remaining list is re-filtered. -/
def markTasksCompleted (c : TaskCache) (eventId : String) (tasks : List Task) (now : Nat) :
    TaskCache :=
  if eventId = "" ∨ tasks = [] then c
  else
    cacheSet c eventId
      (markEntry
        ((c eventId).getD
          { remainingTasks := [], completedTaskKeys := [], createdAt := now, updatedAt := now })
        tasks now)

/-- `TaskCache.getRemainingTasks(eventId)`: `null` for a falsy id or a missing
entry, else a (cloned) copy of the remaining list. -/
def getRemainingTasks (c : TaskCache) (eventId : String) : Option (List Task) :=
  if eventId = "" then none
  else (c eventId).map (·.remainingTasks)

/-- `TaskCache.getRemainingCount(eventId)`: `0` when the entry is missing. -/
def getRemainingCount (c : TaskCache) (eventId : String) : Nat :=
  match c eventId with
  | some e => e.remainingTasks.length
  | none => 0

/-- `TaskCache.clear(eventId)`. -/
def clear (c : TaskCache) (eventId : String) : TaskCache :=
  if eventId = "" then c else cacheDelete c eventId

/-- A mutating cache operation, for stating invariants over arbitrary call
sequences (the getters do not change state). -/
inductive CacheOp where
  | set (eventId : String) (tasks : List Task) (now : Nat)
  | mark (eventId : String) (tasks : List Task) (now : Nat)
  | wipe (eventId : String)
deriving Repr

def applyOp (c : TaskCache) : CacheOp → TaskCache
  | .set e ts n => setRemainingTasks c e ts n
  | .mark e ts n => markTasksCompleted c e ts n
  | .wipe e => clear c e

def runOps (ops : List CacheOp) : TaskCache :=
  ops.foldl applyOp emptyTaskCache

/-- The per-entry invariant: no remaining task has its derived key in the
completed-key set. -/
def entryInv (e : TaskEntry) : Prop :=
  ∀ t ∈ e.remainingTasks, ∀ k, taskKey (some t) = some k → k ∉ e.completedTaskKeys

def cacheInv (c : TaskCache) : Prop :=
  ∀ id e, c id = some e → entryInv e

/-- The remaining tasks of an event as a plain list (empty when absent). -/
def tasksOf (c : TaskCache) (eventId : String) : List Task :=
  (getRemainingTasks c eventId).getD []

/-- All observations the cache getters expose for one event id, plus the
completed-key set. -/
def observe (c : TaskCache) (eventId : String) :
    Option (List Task) × Nat × Option (List String) :=
  (getRemainingTasks c eventId, getRemainingCount c eventId,
    (c eventId).map (·.completedTaskKeys))

/-! ### Lemmas about the cache primitives -/

theorem cacheSet_same (c : TaskCache) (k : String) (e : TaskEntry) :
    cacheSet c k e k = some e := by
  simp [cacheSet]

theorem cacheSet_other (c : TaskCache) (k : String) (e : TaskEntry) {k2 : String}
    (h : k2 ≠ k) : cacheSet c k e k2 = c k2 := by
  simp [cacheSet, h]

theorem cacheDelete_same (c : TaskCache) (k : String) : cacheDelete c k k = none := by
  simp [cacheDelete]

theorem cacheDelete_other (c : TaskCache) (k : String) {k2 : String}
    (h : k2 ≠ k) : cacheDelete c k k2 = c k2 := by
  simp [cacheDelete, h]

theorem mem_keyFilter {keys : List String} {tasks : List Task} {t : Task}
    (h : t ∈ keyFilter keys tasks) :
    t ∈ tasks ∧ ∀ k, taskKey (some t) = some k → k ∉ keys := by
  rcases List.mem_filter.mp h with ⟨h1, h2⟩
  refine ⟨h1, ?_⟩
  intro k hk
  unfold keepTask at h2
  rw [hk] at h2
  simpa using h2

theorem keyFilter_cons (keys : List String) (t : Task) (ts : List Task) :
    keyFilter keys (t :: ts) =
      if keepTask keys t then t :: keyFilter keys ts else keyFilter keys ts := by
  simp [keyFilter, List.filter_cons]

theorem keyFilter_idem (keys : List String) (l : List Task) :
    keyFilter keys (keyFilter keys l) = keyFilter keys l := by
  induction l with
  | nil => rfl
  | cons t ts ih =>
    cases h : keepTask keys t with
    | false => simp [keyFilter_cons, h, ih]
    | true => simp [keyFilter_cons, h, ih]

theorem keyFilter_nil (keys : List String) : keyFilter keys [] = [] := rfl

theorem mem_addKey_self (keys : List String) (k : String) : k ∈ addKey keys k := by
  unfold addKey
  split
  · assumption
  · simp

theorem mem_addKey_of_mem {keys : List String} {a : String} (h : a ∈ keys) (k : String) :
    a ∈ addKey keys k := by
  unfold addKey
  split
  · exact h
  · exact List.mem_append_left _ h

theorem mem_addTaskKeys_of_mem (ts : List Task) :
    ∀ {keys : List String} {a : String}, a ∈ keys → a ∈ addTaskKeys keys ts := by
  induction ts with
  | nil =>
    intro keys a h
    exact h
  | cons t2 ts ih =>
    intro keys a h
    simp only [addTaskKeys, List.foldl_cons]
    show a ∈ addTaskKeys _ ts
    cases hk2 : taskKey (some t2) with
    | none => simpa [addTaskKeys, hk2] using ih h
    | some k2 => simpa [addTaskKeys, hk2] using ih (mem_addKey_of_mem h k2)

theorem mem_addTaskKeys_of_task (ts : List Task) :
    ∀ {keys : List String} {t : Task} {k : String}, t ∈ ts → taskKey (some t) = some k →
      k ∈ addTaskKeys keys ts := by
  induction ts with
  | nil =>
    intro _ _ _ h
    cases h
  | cons t2 ts ih =>
    intro keys t k ht hk
    simp only [addTaskKeys, List.foldl_cons]
    rcases List.mem_cons.mp ht with rfl | ht2
    · rw [hk]
      show k ∈ addTaskKeys (addKey keys k) ts
      exact mem_addTaskKeys_of_mem ts (mem_addKey_self keys k)
    · show k ∈ addTaskKeys _ ts
      exact ih ht2 hk

theorem addTaskKeys_eq_of_contained (ts : List Task) :
    ∀ {keys : List String},
      (∀ t ∈ ts, ∀ k, taskKey (some t) = some k → k ∈ keys) →
      addTaskKeys keys ts = keys := by
  induction ts with
  | nil =>
    intro keys _
    rfl
  | cons t2 ts ih =>
    intro keys h
    simp only [addTaskKeys, List.foldl_cons]
    have hstep :
        (match taskKey (some t2) with
          | some k => addKey keys k
          | none => keys) = keys := by
      cases hk : taskKey (some t2) with
      | none => rfl
      | some k => simp [addKey, h t2 (List.mem_cons_self t2 ts) k hk]
    show addTaskKeys _ ts = keys
    rw [hstep]
    exact ih fun t ht k hk => h t (List.mem_cons_of_mem _ ht) k hk

theorem addTaskKeys_idem (keys : List String) (ts : List Task) :
    addTaskKeys (addTaskKeys keys ts) ts = addTaskKeys keys ts :=
  addTaskKeys_eq_of_contained ts fun _t ht _k hk => mem_addTaskKeys_of_task ts ht hk

theorem markTasksCompleted_apply (c : TaskCache) (eventId : String) (tasks : List Task)
    (now : Nat) (hE : eventId ≠ "") (hts : tasks ≠ []) :
    markTasksCompleted c eventId tasks now =
      cacheSet c eventId
        (markEntry
          ((c eventId).getD
            { remainingTasks := [], completedTaskKeys := [], createdAt := now,
              updatedAt := now })
          tasks now) := by
  unfold markTasksCompleted
  rw [if_neg (not_or.mpr ⟨hE, hts⟩)]

/-! ### Invariant preservation -/

theorem cacheInv_applyOp {c : TaskCache} (h : cacheInv c) (op : CacheOp) :
    cacheInv (applyOp c op) := by
  cases op with
  | set eventId ts now =>
    show cacheInv (setRemainingTasks c eventId ts now)
    unfold setRemainingTasks
    split
    · exact h
    · rcases hc : c eventId with _ | entry
      · intro id e he
        dsimp only at he
        by_cases hid : id = eventId
        · subst hid
          rw [cacheSet_same, Option.some_inj] at he
          subst he
          intro t _ht k _hk
          simp
        · rw [cacheSet_other _ _ _ hid] at he
          exact h id e he
      · intro id e he
        dsimp only at he
        by_cases hid : id = eventId
        · subst hid
          rw [cacheSet_same, Option.some_inj] at he
          subst he
          intro t ht k hk
          exact (mem_keyFilter ht).2 k hk
        · rw [cacheSet_other _ _ _ hid] at he
          exact h id e he
  | mark eventId ts now =>
    show cacheInv (markTasksCompleted c eventId ts now)
    unfold markTasksCompleted
    split
    · exact h
    · intro id e he
      by_cases hid : id = eventId
      · subst hid
        rw [cacheSet_same, Option.some_inj] at he
        subst he
        intro t ht k hk
        exact (mem_keyFilter ht).2 k hk
      · rw [cacheSet_other _ _ _ hid] at he
        exact h id e he
  | wipe eventId =>
    show cacheInv (clear c eventId)
    unfold clear
    split
    · exact h
    · intro id e he
      by_cases hid : id = eventId
      · subst hid
        rw [cacheDelete_same] at he
        cases he
      · rw [cacheDelete_other _ _ hid] at he
        exact h id e he

theorem cacheInv_empty : cacheInv emptyTaskCache := by
  intro id e he
  simp [emptyTaskCache] at he

theorem cacheInv_foldl (ops : List CacheOp) :
    ∀ {c : TaskCache}, cacheInv c → cacheInv (ops.foldl applyOp c) := by
  induction ops with
  | nil =>
    intro c h
    exact h
  | cons op ops ih =>
    intro c h
    exact ih (cacheInv_applyOp h op)

/-! ### Claim theorems for the task cache -/

/-- Claim C2: across every sequence of task-cache operations, an entry's
remaining-task list never contains a task whose derived key is in the
completed-key set; in particular a `setRemainingTasks` re-analysis that follows
a `markTasksCompleted` for the same event never re-adds a task whose key was
marked completed. -/
theorem taskCache_no_completed_in_remaining :
    (∀ ops : List CacheOp, cacheInv (runOps ops)) ∧
    (∀ (ops : List CacheOp) (eventId : String) (S fresh : List Task) (t1 t2 : Nat)
        (tk : Task),
      tk ∈ tasksOf
          (runOps (ops ++ [CacheOp.mark eventId S t1, CacheOp.set eventId fresh t2]))
          eventId →
      ∀ s ∈ S, ∀ k, taskKey (some s) = some k → taskKey (some tk) ≠ some k) := by
  constructor
  · intro ops
    exact cacheInv_foldl ops cacheInv_empty
  · intro ops eventId S fresh t1 t2 tk htk s hs k hk hcontra
    by_cases hE : eventId = ""
    · rw [runOps, List.foldl_append] at htk
      simp [tasksOf, getRemainingTasks, hE] at htk
    have hS : S ≠ [] := by
      intro hnil
      rw [hnil] at hs
      cases hs
    rw [runOps, List.foldl_append, List.foldl_cons, List.foldl_cons, List.foldl_nil] at htk
    set c0 : TaskCache := List.foldl applyOp emptyTaskCache ops with hc0
    change tk ∈ tasksOf (setRemainingTasks (markTasksCompleted c0 eventId S t1)
      eventId fresh t2) eventId at htk
    have hmark : markTasksCompleted c0 eventId S t1 eventId =
        some (markEntry ((c0 eventId).getD
          { remainingTasks := [], completedTaskKeys := [], createdAt := t1,
            updatedAt := t1 }) S t1) := by
      rw [markTasksCompleted_apply c0 eventId S t1 hE hS, cacheSet_same]
    set e1 := markEntry ((c0 eventId).getD
      { remainingTasks := [], completedTaskKeys := [], createdAt := t1,
        updatedAt := t1 }) S t1 with he1
    have hkeys : k ∈ e1.completedTaskKeys := by
      rw [he1]
      exact mem_addTaskKeys_of_task S hs hk
    have hset : tasksOf (setRemainingTasks (markTasksCompleted c0 eventId S t1)
        eventId fresh t2) eventId = keyFilter e1.completedTaskKeys fresh := by
      unfold setRemainingTasks
      rw [if_neg hE, hmark]
      dsimp only
      simp [tasksOf, getRemainingTasks, hE, cacheSet_same]
    rw [hset] at htk
    exact (mem_keyFilter htk).2 k hcontra hkeys

/-- Witness for C2, instantiated on a concrete run: after marking task "a"
completed for event "e" and re-analyzing with a fresh list containing "a" and
"b", any task still remaining (here "b") cannot carry the completed key. -/
theorem taskCache_no_completed_in_remaining_witness :
    taskKey (some { task := some "b" }) ≠ some "task:a" :=
  taskCache_no_completed_in_remaining.2 [] "e" [{ task := some "a" }]
    [{ task := some "a" }, { task := some "b" }] 0 1 { task := some "b" }
    (by decide) { task := some "a" } (by decide) "task:a" (by decide)

/-- Claim C7: `markTasksCompleted` is idempotent — applying it twice with the
same task set leaves every observation (remaining tasks, remaining count,
completed-key set, for every event id) identical to applying it once. -/
theorem markTasksCompleted_idempotent (c : TaskCache) (eventId : String)
    (tasks : List Task) (t1 t2 : Nat) (id : String) :
    observe (markTasksCompleted (markTasksCompleted c eventId tasks t1) eventId tasks t2) id
      = observe (markTasksCompleted c eventId tasks t1) id := by
  by_cases hguard : eventId = "" ∨ tasks = []
  · unfold markTasksCompleted
    rw [if_pos hguard]
  · rw [not_or] at hguard
    obtain ⟨hE, hts⟩ := hguard
    set e1 := markEntry ((c eventId).getD
      { remainingTasks := [], completedTaskKeys := [], createdAt := t1,
        updatedAt := t1 }) tasks t1 with he1
    have h1 : markTasksCompleted c eventId tasks t1 = cacheSet c eventId e1 :=
      markTasksCompleted_apply c eventId tasks t1 hE hts
    have hmark2 : markEntry e1 tasks t2 = { e1 with updatedAt := t2 } := by
      rw [he1]
      simp [markEntry, addTaskKeys_idem, keyFilter_idem]
    have h2 : markTasksCompleted (cacheSet c eventId e1) eventId tasks t2 =
        cacheSet (cacheSet c eventId e1) eventId { e1 with updatedAt := t2 } := by
      rw [markTasksCompleted_apply _ eventId tasks t2 hE hts, cacheSet_same]
      simp only [Option.getD_some]
      rw [hmark2]
    rw [h1, h2]
    by_cases hid : id = eventId
    · subst hid
      simp [observe, getRemainingTasks, getRemainingCount, cacheSet_same]
    · unfold observe getRemainingTasks getRemainingCount
      rw [cacheSet_other _ _ _ hid, cacheSet_other _ _ _ hid]

/-- Counterexample to claim C10 as stated: calling `markTasksCompleted` for an
event with no cache entry is observably NOT a no-op — it creates an entry, so
`getRemainingTasks` afterwards returns an empty list instead of `null`, and a
subsequent `setRemainingTasks` filters out the marked task. -/
theorem markTasksCompleted_missing_entry_not_noop :
    getRemainingTasks
        (setRemainingTasks
          (markTasksCompleted emptyTaskCache "evt1" [{ task := some "pack bags" }] 0)
          "evt1" [{ task := some "pack bags" }] 1)
        "evt1"
      ≠ getRemainingTasks
          (setRemainingTasks emptyTaskCache "evt1" [{ task := some "pack bags" }] 1)
          "evt1" := by
  decide

/-- Claim C10 (amended): `markTasksCompleted` against a missing cache entry
succeeds (it is total, not fatal) but is not a state no-op: it creates an entry
whose remaining list is empty and whose completed-key set records the marked
tasks, and it leaves every other event id untouched. -/
theorem markTasksCompleted_missing_entry_records (c : TaskCache) (eventId : String)
    (tasks : List Task) (now : Nat) (hE : eventId ≠ "") (hts : tasks ≠ [])
    (_hmiss : c eventId = none) :
    getRemainingTasks (markTasksCompleted c eventId tasks now) eventId = some [] ∧
    getRemainingCount (markTasksCompleted c eventId tasks now) eventId = 0 ∧
    (∀ t ∈ tasks, ∀ k, taskKey (some t) = some k →
      ∃ e, markTasksCompleted c eventId tasks now eventId = some e ∧
        k ∈ e.completedTaskKeys) ∧
    (∀ id, id ≠ eventId → markTasksCompleted c eventId tasks now id = c id) := by
  rw [markTasksCompleted_apply c eventId tasks now hE hts]
  rw [_hmiss]
  dsimp only [Option.getD]
  refine ⟨?_, ?_, ?_, ?_⟩
  · simp [getRemainingTasks, hE, cacheSet_same, markEntry, keyFilter]
  · simp [getRemainingCount, cacheSet_same, markEntry, keyFilter]
  · intro t ht k hk
    refine ⟨_, cacheSet_same _ _ _, ?_⟩
    exact mem_addTaskKeys_of_task tasks ht hk
  · intro id hid
    exact cacheSet_other _ _ _ hid

/-- Witness for the amended C10 at a concrete input. -/
theorem markTasksCompleted_missing_entry_records_witness :
    getRemainingTasks
        (markTasksCompleted emptyTaskCache "evt2" [{ task := some "x" }] 3) "evt2"
      = some [] :=
  (markTasksCompleted_missing_entry_records emptyTaskCache "evt2"
    [{ task := some "x" }] 3 (by decide) (by decide) rfl).1

/-- Normalized comparison form of a text field: trimmed then lowercased. -/
def normText (s : String) : String := jsToLower (jsTrim s)

/-- Claim C8: `taskKey` is a deterministic stable identifier with the priority
id, then task text, then title text, then the
`category|description|estimatedTime` fallback; two tasks with the same
explicit id, or the same (case-insensitively normalized) task text, or the
same normalized title, or the same normalized fallback triple, always receive
equal keys. -/
theorem taskKey_stable (t1 t2 : Task)
    (h :
      (truthy t1.id = true ∧ t1.id = t2.id) ∨
      (truthy t1.id = false ∧ truthy t2.id = false ∧
        truthy t1.task = true ∧ truthy t2.task = true ∧
        normText (t1.task.getD "") = normText (t2.task.getD "")) ∨
      (truthy t1.id = false ∧ truthy t2.id = false ∧
        truthy t1.task = false ∧ truthy t2.task = false ∧
        truthy t1.title = true ∧ truthy t2.title = true ∧
        normText (t1.title.getD "") = normText (t2.title.getD "")) ∨
      (truthy t1.id = false ∧ truthy t2.id = false ∧
        truthy t1.task = false ∧ truthy t2.task = false ∧
        truthy t1.title = false ∧ truthy t2.title = false ∧
        fallbackPart t1.category = fallbackPart t2.category ∧
        fallbackPart t1.description = fallbackPart t2.description ∧
        fallbackPart t1.estimatedTime = fallbackPart t2.estimatedTime)) :
    taskKey (some t1) = taskKey (some t2) := by
  rcases h with ⟨h1, h2⟩ | ⟨ha, hb, hc, hd, he⟩ | ⟨ha, hb, hc, hd, he, hf, hg⟩ |
    ⟨ha, hb, hc, hd, he, hf, hg, hh, hi⟩
  · simp [taskKey, h1, h2, h2 ▸ h1]
  · unfold normText at he
    simp [taskKey, ha, hb, hc, hd, he]
  · unfold normText at hg
    simp [taskKey, ha, hb, hc, hd, he, hf, hg]
  · simp [taskKey, ha, hb, hc, hd, he, hf, hg, hh, hi]

/-- Witness for C8: two tasks whose task text differs only in case and
whitespace receive the same key. -/
theorem taskKey_stable_witness :
    taskKey (some { task := some "  Buy MILK " }) = taskKey (some { task := some "buy milk" }) :=
  taskKey_stable { task := some "  Buy MILK " } { task := some "buy milk" }
    (Or.inr (Or.inl (by decide)))

/-! ## Conversation summarizer and history compaction

`ConversationSummarizer.shouldSummarize` / `getMessagesToSummarize`, and the
history update of the `/process` route (append the user/assistant exchange,
then compact when the predicate fires: raw history becomes `toKeep`, the
watermark becomes the new length; the summary text itself comes from the LLM
collaborator and does not influence which messages are kept). -/

structure Message where
  role : String
  content : String
deriving DecidableEq, Repr

/-- `ConversationSummarizer.shouldSummarize(messageCount, lastSummarizedAt)`:
summarize every `4 * 2 = 8` messages. -/
def shouldSummarize (messageCount : Nat) (lastSummarizedAt : Nat) : Bool :=
  let threshold := 4 * 2
  decide (messageCount ≥ threshold) && decide (messageCount - lastSummarizedAt ≥ threshold)

/-- `ConversationSummarizer.getMessagesToSummarize(allMessages, lastSummarizedAt)`:
keep the most recent 8 messages, summarize everything before the split point.
(The watermark argument is accepted but unused by the implementation.) -/
def getMessagesToSummarize (allMessages : List Message) (_lastSummarizedAt : Nat) :
    List Message × List Message :=
  if allMessages.length ≤ 8 then ([], allMessages)
  else
    (allMessages.take (allMessages.length - 8), allMessages.drop (allMessages.length - 8))

/-- The history-compaction step of the `/process` route: append the exchange;
when `shouldSummarize` fires, store only `toKeep` as raw history and move the
watermark to the new length. -/
def recordExchange (history : List Message) (lastSummarizedAt : Nat)
    (userMsg aiMsg : Message) : List Message × Nat :=
  let newHistory := history ++ [userMsg, aiMsg]
  if shouldSummarize newHistory.length lastSummarizedAt then
    ((getMessagesToSummarize newHistory lastSummarizedAt).2, newHistory.length)
  else
    (newHistory, lastSummarizedAt)

/-- Claim C6: `shouldSummarize` is true exactly when the message count has
reached 8 and has grown by at least 8 since the watermark; when compaction
fires, exactly the most recent `min(length, 8)` messages are kept (the split
is a prefix/suffix decomposition of the history), the watermark becomes the
new length, and post-compaction raw history never exceeds 8 entries. -/
theorem summarization_trigger_and_bound :
    (∀ messageCount lastSummarizedAt : Nat,
      shouldSummarize messageCount lastSummarizedAt = true ↔
        (8 ≤ messageCount ∧ 8 ≤ messageCount - lastSummarizedAt)) ∧
    (∀ (msgs : List Message) (l : Nat),
      (getMessagesToSummarize msgs l).1 ++ (getMessagesToSummarize msgs l).2 = msgs ∧
      (getMessagesToSummarize msgs l).2 = msgs.drop (msgs.length - 8) ∧
      (getMessagesToSummarize msgs l).2.length = min msgs.length 8) ∧
    (∀ (history : List Message) (l : Nat) (u a : Message),
      shouldSummarize (history.length + 2) l = true →
      (recordExchange history l u a).1.length ≤ 8 ∧
      (recordExchange history l u a).2 = history.length + 2) := by
  refine ⟨?_, ?_, ?_⟩
  · intro c l
    simp [shouldSummarize]
  · intro msgs l
    unfold getMessagesToSummarize
    by_cases h : msgs.length ≤ 8
    · rw [if_pos h]
      refine ⟨by simp, ?_, ?_⟩
      · have h0 : msgs.length - 8 = 0 := by omega
        simp [h0]
      · simp
        omega
    · rw [if_neg h]
      refine ⟨List.take_append_drop _ _, rfl, ?_⟩
      simp
      omega
  · intro history l u a hfire
    have hlen : (history ++ [u, a]).length = history.length + 2 := by
      simp
    simp only [recordExchange]
    rw [hlen, if_pos hfire]
    constructor
    · unfold getMessagesToSummarize
      by_cases h : (history ++ [u, a]).length ≤ 8
      · rw [if_pos h]
        simpa using h
      · rw [if_neg h]
        simp
        omega
    · rfl

/-- Witness for C6: a 6-message history plus one exchange reaches 8 with a zero
watermark, fires compaction, and keeps all 8 messages with the watermark at 8. -/
theorem summarization_trigger_and_bound_witness :
    (recordExchange
        [⟨"user", "m1"⟩, ⟨"assistant", "m2"⟩, ⟨"user", "m3"⟩, ⟨"assistant", "m4"⟩,
          ⟨"user", "m5"⟩, ⟨"assistant", "m6"⟩] 0 ⟨"user", "u"⟩ ⟨"assistant", "a"⟩).1.length ≤ 8 ∧
    (recordExchange
        [⟨"user", "m1"⟩, ⟨"assistant", "m2"⟩, ⟨"user", "m3"⟩, ⟨"assistant", "m4"⟩,
          ⟨"user", "m5"⟩, ⟨"assistant", "m6"⟩] 0 ⟨"user", "u"⟩ ⟨"assistant", "a"⟩).2 = 8 :=
  summarization_trigger_and_bound.2.2
    [⟨"user", "m1"⟩, ⟨"assistant", "m2"⟩, ⟨"user", "m3"⟩, ⟨"assistant", "m4"⟩,
      ⟨"user", "m5"⟩, ⟨"assistant", "m6"⟩] 0 ⟨"user", "u"⟩ ⟨"assistant", "a"⟩ (by decide)

/-! ## Bounded follow-up loop

The deterministic branch logic of `OpenAIVoiceAdapter.parseIntent` once the
LLM response has been parsed, the conversation cleanup of the `/process`
route, and the `followUpCount` stepping performed by the client
(`handleVoiceInput`). -/

inductive Intent where
  | add_event
  | delete_event
  | add_to_wishlist
  | update_wishlist
  | delete_wishlist
  | needs_clarification
deriving DecidableEq, Repr

/-- The fields of the JSON object parsed out of the LLM completion that the
follow-up branch logic reads. -/
structure ParsedResponse where
  intent : Intent
  followUpQuestion : Option String := none
deriving DecidableEq, Repr

/-- The fields of the `parseIntent` result the follow-up loop depends on
(fields the source leaves `undefined` are `none` / `false`, matching the
`|| false` / `|| null` defaults applied by the route before responding). -/
structure IntentResult where
  intent : Intent
  followUpQuestion : Option String
  readyToProcess : Bool
  abort : Bool
  abortMessage : Option String
deriving DecidableEq, Repr

def maxFollowUps : Nat := 5

/-- JavaScript `x || y` for an optional string with a default. -/
def strOr (x : Option String) (y : String) : String :=
  match x with
  | some s => if s = "" then y else s
  | none => y

/-- The deterministic tail of `OpenAIVoiceAdapter.parseIntent`: clarification
below the limit returns a follow-up question (with a default text) and
`readyToProcess: false`; clarification at or above the limit returns
`abort: true` with a `null` question; any other intent is ready to process. -/
def parseIntentResult (parsed : ParsedResponse) (followUpCount : Nat) : IntentResult :=
  if parsed.intent = .needs_clarification ∧ followUpCount < maxFollowUps then
    { intent := .needs_clarification
      followUpQuestion := some (strOr parsed.followUpQuestion "Could you provide more details?")
      readyToProcess := false
      abort := false
      abortMessage := none }
  else if parsed.intent = .needs_clarification ∧ followUpCount ≥ maxFollowUps then
    { intent := .needs_clarification
      followUpQuestion := none
      readyToProcess := false
      abort := true
      abortMessage := some "I'm having trouble understanding. Please add or delete events manually." }
  else
    { intent := parsed.intent
      followUpQuestion := none
      readyToProcess := true
      abort := false
      abortMessage := none }

/-- The conversation store of the `/process` route, reduced to which ids are
present; the route deletes the conversation when the result aborts and a
conversation id is present (`clearConversation`). -/
def ConvStore : Type := String → Bool

def routeAbortCleanup (store : ConvStore) (conversationId : String)
    (r : IntentResult) : ConvStore :=
  if r.abort ∧ conversationId ≠ "" then
    fun k => if k = conversationId then false else store k
  else store

/-- The client stepping of `followUpCount` in `handleVoiceInput`: reset on
abort, increment by one on a follow-up question below the limit, reset once an
intent is processed, otherwise unchanged. -/
def clientNextCount (r : IntentResult) (count : Nat) : Nat :=
  if r.abort ∧ truthy r.abortMessage then 0
  else if r.intent = .needs_clarification ∧ truthy r.followUpQuestion ∧ count < 5 then
    count + 1
  else if r.readyToProcess then 0
  else count

/-- One whole clarification turn as the client sees it. -/
def stepCount (count : Nat) (parsed : ParsedResponse) : Nat :=
  clientNextCount (parseIntentResult parsed count) count

theorem truthy_strOr (x : Option String) (d : String) (hd : d ≠ "") :
    truthy (some (strOr x d)) = true := by
  unfold strOr truthy
  cases x with
  | none => simpa using hd
  | some s =>
    by_cases hs : s = "" <;> simp [hs, hd]

/-- Claim C5: an ambiguous turn below the limit of 5 yields a follow-up
question, `readyToProcess: false` and no abort, and the caller increments
`followUpCount` by exactly one; an ambiguous turn at the limit yields
`abort: true` with a `null` question, the stored conversation is deleted, and
the count never exceeds 5 over any sequence of turns starting from zero. -/
theorem followUp_limit_behavior :
    (∀ (parsed : ParsedResponse) (count : Nat),
      parsed.intent = .needs_clarification → count < 5 →
        truthy (parseIntentResult parsed count).followUpQuestion = true ∧
        (parseIntentResult parsed count).readyToProcess = false ∧
        (parseIntentResult parsed count).abort = false ∧
        clientNextCount (parseIntentResult parsed count) count = count + 1) ∧
    (∀ (parsed : ParsedResponse) (count : Nat),
      parsed.intent = .needs_clarification → 5 ≤ count →
        (parseIntentResult parsed count).abort = true ∧
        (parseIntentResult parsed count).followUpQuestion = none ∧
        clientNextCount (parseIntentResult parsed count) count = 0 ∧
        (∀ (store : ConvStore) (cid : String), cid ≠ "" →
          routeAbortCleanup store cid (parseIntentResult parsed count) cid = false)) ∧
    (∀ turns : List ParsedResponse, turns.foldl stepCount 0 ≤ 5) := by
  refine ⟨?_, ?_, ?_⟩
  · intro parsed count hint hlt
    have hcond : parsed.intent = .needs_clarification ∧ count < maxFollowUps :=
      ⟨hint, hlt⟩
    have hr : parseIntentResult parsed count =
        { intent := .needs_clarification
          followUpQuestion := some (strOr parsed.followUpQuestion "Could you provide more details?")
          readyToProcess := false
          abort := false
          abortMessage := none } := by
      unfold parseIntentResult
      rw [if_pos hcond]
    have hq : truthy (parseIntentResult parsed count).followUpQuestion = true := by
      rw [hr]
      exact truthy_strOr _ _ (by decide)
    refine ⟨hq, by rw [hr], by rw [hr], ?_⟩
    unfold clientNextCount
    rw [if_neg ?abortneg, if_pos ?follow]
    case abortneg =>
      rw [hr]
      simp [truthy]
    case follow =>
      exact ⟨by rw [hr], hq, hlt⟩
  · intro parsed count hint hge
    have hcond : ¬(parsed.intent = .needs_clarification ∧ count < maxFollowUps) := by
      intro hc
      unfold maxFollowUps at hc
      omega
    unfold parseIntentResult
    rw [if_neg hcond, if_pos ⟨hint, hge⟩]
    refine ⟨rfl, rfl, ?_, ?_⟩
    · unfold clientNextCount
      rw [if_pos (by exact ⟨rfl, by simp [truthy]⟩)]
    · intro store cid hcid
      unfold routeAbortCleanup
      rw [if_pos ⟨rfl, hcid⟩]
      simp
  · intro turns
    have hstep : ∀ (count : Nat) (parsed : ParsedResponse), count ≤ 5 →
        stepCount count parsed ≤ 5 := by
      intro count parsed hle
      unfold stepCount clientNextCount
      split
      · omega
      · split
        · rename_i h2
          obtain ⟨-, -, hlt⟩ := h2
          omega
        · split
          · omega
          · omega
    have hfold : ∀ (turns : List ParsedResponse) (count : Nat), count ≤ 5 →
        turns.foldl stepCount count ≤ 5 := by
      intro turns
      induction turns with
      | nil =>
        intro count h
        exact h
      | cons t ts ih =>
        intro count h
        exact ih _ (hstep count t h)
    exact hfold turns 0 (by omega)

/-- Witness for C5: a concrete ambiguous turn at count 3 increments to 4, and a
concrete ambiguous turn at count 5 aborts with no question and deletes the
stored conversation. -/
theorem followUp_limit_behavior_witness :
    clientNextCount (parseIntentResult ⟨Intent.needs_clarification, none⟩ 3) 3 = 3 + 1 ∧
    (parseIntentResult ⟨Intent.needs_clarification, none⟩ 5).abort = true ∧
    routeAbortCleanup (fun _ => true) "conv1"
        (parseIntentResult ⟨Intent.needs_clarification, none⟩ 5) "conv1" = false :=
  ⟨(followUp_limit_behavior.1 ⟨Intent.needs_clarification, none⟩ 3 rfl (by omega)).2.2.2,
    (followUp_limit_behavior.2.1 ⟨Intent.needs_clarification, none⟩ 5 rfl (by omega)).1,
    (followUp_limit_behavior.2.1 ⟨Intent.needs_clarification, none⟩ 5 rfl
      (by omega)).2.2.2 (fun _ => true) "conv1" (by decide)⟩

/-! ## Dates, times and the JavaScript value model

The normalization code branches on the runtime type of event fields and can
throw; both are made explicit.  Datetimes are wall-clock values at minute
granularity (the code only ever extracts local components and minute-level
durations); `new Date(string)` is embedded for the ISO-style strings this
codebase produces and consumes. -/

structure DateTime where
  year : Nat
  month : Nat
  day : Nat
  hour : Nat
  minute : Nat
deriving DecidableEq, Repr

/-- Linearization of a datetime to minutes (bases large enough for any valid
component values), used for durations, ordering and the free-slot cursor. -/
def minutesOf (dt : DateTime) : Nat :=
  dt.minute + 60 * (dt.hour + 24 * (dt.day + 32 * (dt.month + 13 * dt.year)))

/-- Inverse of `minutesOf` on valid component ranges. -/
def fromMinutes (n : Nat) : DateTime :=
  { year := n / 60 / 24 / 32 / 13
    month := n / 60 / 24 / 32 % 13
    day := n / 60 / 24 % 32
    hour := n / 60 % 24
    minute := n % 60 }

def splitOnChar (sep : Char) : List Char → List (List Char)
  | [] => [[]]
  | c :: cs =>
    let rest := splitOnChar sep cs
    if c = sep then [] :: rest
    else
      match rest with
      | r :: rs => (c :: r) :: rs
      | [] => [[c]]

def digitsToNat (cs : List Char) : Nat :=
  cs.foldl (fun acc c => acc * 10 + (c.toNat - 48)) 0

def allDigits (cs : List Char) : Bool := cs.all Char.isDigit

/-- Parse a `YYYY-MM-DD` date part. -/
def parseDatePart (cs : List Char) : Option (Nat × Nat × Nat) :=
  match splitOnChar '-' cs with
  | [y, m, d] =>
    if y.length = 4 && m.length = 2 && d.length = 2 &&
        allDigits y && allDigits m && allDigits d then
      some (digitsToNat y, digitsToNat m, digitsToNat d)
    else none
  | _ => none

/-- Parse the leading `HH:MM` of a time part (seconds and suffixes ignored). -/
def parseTimePart (cs : List Char) : Option (Nat × Nat) :=
  match cs with
  | h1 :: h2 :: ':' :: m1 :: m2 :: _ =>
    if h1.isDigit && h2.isDigit && m1.isDigit && m2.isDigit then
      some (digitsToNat [h1, h2], digitsToNat [m1, m2])
    else none
  | _ => none

/-- Embedding of `new Date(string)`: a bare `YYYY-MM-DD` parses to midnight, a
`YYYY-MM-DDTHH:MM...` combines both; anything else is an Invalid Date. -/
def jsParseDate (s : String) : Option DateTime :=
  match splitOnChar 'T' s.data with
  | [d] =>
    (parseDatePart d).map fun p => ⟨p.1, p.2.1, p.2.2, 0, 0⟩
  | [d, t] =>
    match parseDatePart d, parseTimePart t with
    | some p, some q => some ⟨p.1, p.2.1, p.2.2, q.1, q.2⟩
    | _, _ => none
  | _ => none

/-- `n.toString().padStart(2, '0')`. -/
def pad2 (n : Nat) : String :=
  if n < 10 then "0" ++ toString n else toString n

def pad4 (n : Nat) : String :=
  if n < 10 then "000" ++ toString n
  else if n < 100 then "00" ++ toString n
  else if n < 1000 then "0" ++ toString n
  else toString n

/-- The `YYYY-MM-DD` rendering used for normalized dates and
`toISOString().split('T')[0]`. -/
def toISODateString (dt : DateTime) : String :=
  pad4 dt.year ++ "-" ++ pad2 dt.month ++ "-" ++ pad2 dt.day

/-- The full datetime rendering used for `toISOString()` (at the minute
granularity of this model). -/
def toISOString (dt : DateTime) : String :=
  toISODateString dt ++ "T" ++ pad2 dt.hour ++ ":" ++ pad2 dt.minute

/-- A JavaScript value in the positions where the code branches on runtime
type: a string, a number, a `Date` object, or null/undefined/absent. -/
inductive JVal where
  | vStr (s : String)
  | vNum (n : Int)
  | vDate (t : DateTime)
  | vNull
deriving DecidableEq, Repr

def jsTruthy : JVal → Bool
  | .vStr s => s != ""
  | .vNum n => n != 0
  | .vDate _ => true
  | .vNull => false

def strContainsChar (s : String) (c : Char) : Bool :=
  s.data.any fun c2 => c2 == c

/-- `new Date(v)` for the values that reach it on the embedded paths: strings
parse as above, a `Date` object is copied; other values are collapsed to an
Invalid Date (the numeric millisecond constructor is never exercised here). -/
def jsNewDate : JVal → Option DateTime
  | .vStr s => jsParseDate s
  | .vDate t => some t
  | .vNum _ => none
  | .vNull => none

/-- `event.duration || 60`. -/
def durationOr60 : Option Nat → Nat
  | some n => if n = 0 then 60 else n
  | none => 60

/-! ## Event normalization for conflict checking (routes/voice.js,
`normalizeEventsForConflictCheck`) -/

/-- A raw calendar event as the `/check-conflict` route receives it. -/
structure RawEvent where
  allDay : Bool := false
  date : JVal := .vNull
  endDate : JVal := .vNull
  time : JVal := .vNull
  duration : Option Nat := none
deriving DecidableEq, Repr

/-- A normalized event produced by `normalizeEventsForConflictCheck`: the date
string, the time (an unparseable time passes through as the raw value), and
the duration in minutes (negative when `endDate` precedes `date`). -/
structure ConflictCheckEvent where
  date : String
  time : JVal
  duration : Int
deriving DecidableEq, Repr

/-- `event.date?.includes('T')`: optional chaining yields `undefined` for a
nullish date (treated as not-true by the `!` that follows); a string checks
for `T`; a number or `Date` object has no `includes` method and throws. -/
def dateIncludesT : JVal → Except String Bool
  | .vStr s => .ok (strContainsChar s 'T')
  | .vNull => .ok false
  | .vNum _ => .error "TypeError: event.date.includes is not a function"
  | .vDate _ => .error "TypeError: event.date.includes is not a function"

def isStrWithT : JVal → Bool
  | .vStr s => s != "" && strContainsChar s 'T'
  | _ => false

def isDateObj : JVal → Bool
  | .vDate _ => true
  | _ => false

/-- `/^\d{4}-\d{2}-\d{2}$/`. -/
def isDateOnlyStr (s : String) : Bool :=
  (parseDatePart s.data).isSome

/-- `/^\d{1,2}:\d{2}$/`, returning hours and minutes on a match. -/
def timeHMM? (s : String) : Option (Nat × Nat) :=
  match splitOnChar ':' s.data with
  | [h, m] =>
    if (h.length = 1 || h.length = 2) && m.length = 2 && allDigits h && allDigits m then
      some (digitsToNat h, digitsToNat m)
    else none
  | _ => none

/-- The Google-event duration: from `endDate` when present (minutes between
the two instants), else `event.duration || 60`. -/
def googleDuration (e : RawEvent) (s : String) : Int :=
  if jsTruthy e.endDate then
    match jsParseDate s, jsNewDate e.endDate with
    | some a, some b => (minutesOf b : Int) - (minutesOf a : Int)
    | _, _ => 0
  else (durationOr60 e.duration : Int)

/-- Branch 1 of the normalizer: a string date containing `T` is parsed and its
local components re-rendered (an unparseable one yields the `NaN` renderings
JavaScript produces, without throwing). -/
def googleBranch (e : RawEvent) : ConflictCheckEvent :=
  match e.date with
  | .vStr s =>
    match jsParseDate s with
    | some dt =>
      { date := toISODateString dt
        time := .vStr (pad2 dt.hour ++ ":" ++ pad2 dt.minute)
        duration := googleDuration e s }
    | none =>
      { date := "NaN-NaN-NaN"
        time := .vStr "NaN:NaN"
        duration := googleDuration e s }
  | _ => { date := "", time := .vNull, duration := 0 }

/-- Branch 2 of the normalizer: a `Date`-object date. -/
def dateObjBranch (e : RawEvent) : ConflictCheckEvent :=
  match e.date with
  | .vDate t =>
    { date := toISODateString t
      time := .vStr (pad2 t.hour ++ ":" ++ pad2 t.minute)
      duration := (durationOr60 e.duration : Int) }
  | _ => { date := "", time := .vNull, duration := 0 }

/-- Branch 3 of the normalizer: separate date and time fields.  A
`YYYY-MM-DD` date is kept; otherwise the date is re-parsed and re-rendered via
`toISOString()`, which THROWS a `RangeError` on an Invalid Date.  A matching
`H:MM`/`HH:MM` time is zero-padded; any other time passes through raw. -/
def mockBranch (e : RawEvent) : Except String ConflictCheckEvent := do
  let dateStr ←
    match e.date with
    | .vStr s =>
      if isDateOnlyStr s then Except.ok s
      else
        match jsNewDate (.vStr s) with
        | some dt => Except.ok (toISODateString dt)
        | none => Except.error "RangeError: Invalid time value"
    | other =>
      match jsNewDate other with
      | some dt => Except.ok (toISODateString dt)
      | none => Except.error "RangeError: Invalid time value"
  let timeVal :=
    match e.time with
    | .vStr ts =>
      match timeHMM? ts with
      | some q => JVal.vStr (pad2 q.1 ++ ":" ++ pad2 q.2)
      | none => JVal.vStr ts
    | other => other
  Except.ok { date := dateStr, time := timeVal, duration := (durationOr60 e.duration : Int) }

/-- One event through `normalizeEventsForConflictCheck`: `.ok none` models the
`return null` drops (all-day events and the warn-and-drop fallback), `.ok
(some _)` a normalized event, `.error` a thrown exception. -/
def normalizeOne (e : RawEvent) : Except String (Option ConflictCheckEvent) :=
  if e.allDay then .ok none
  else
    match dateIncludesT e.date with
    | .error msg => .error msg
    | .ok hasT =>
      if !hasT && !(jsTruthy e.time) then .ok none
      else if isStrWithT e.date then .ok (some (googleBranch e))
      else if isDateObj e.date then .ok (some (dateObjBranch e))
      else if jsTruthy e.date && jsTruthy e.time then
        match mockBranch e with
        | .ok ev => .ok (some ev)
        | .error msg => .error msg
      else .ok none

/-- `normalizeEventsForConflictCheck(events)`: map then drop the nulls; an
exception in any entry propagates. -/
def normalizeEventsForConflictCheck (events : List RawEvent) :
    Except String (List ConflictCheckEvent) := do
  let mapped ← events.mapM normalizeOne
  return mapped.filterMap id

/-! ## Free-slot finder (`calendarUtils.findFreeSlots`) and the Google-event
normalization of the wishlist routes (`normalizeGoogleEvent`) -/

/-- An event as `findFreeSlots` consumes it: a date string, an optional end
string, an optional title. -/
structure CalUtilEvent where
  date : String
  endDate : Option String := none
  title : Option String := none
deriving DecidableEq, Repr

structure FreeSlot where
  startTime : Nat
  endTime : Nat
  duration : Nat
  date : String
deriving DecidableEq, Repr

/-- The normalization inside `findFreeSlots`: parse each start, default a
missing (or unparseable, here collapsed with missing) end to one hour after
the start, then keep only events whose start parses and is not before the
window start.  Times are `minutesOf` values. -/
def normalizeForSlots (events : List CalUtilEvent) (now : Nat) : List (Nat × Nat) :=
  (events.filterMap fun e =>
    (jsParseDate e.date).map fun d =>
      (minutesOf d,
        match e.endDate.bind jsParseDate with
        | some de => minutesOf de
        | none => minutesOf d + 60)).filter fun p => decide (now ≤ p.1)

def insertByStart (x : Nat × Nat) : List (Nat × Nat) → List (Nat × Nat)
  | [] => [x]
  | y :: ys => if x.1 < y.1 then x :: y :: ys else y :: insertByStart x ys

/-- `sort((a, b) => a.start - b.start)`: a stable sort by start time. -/
def sortByStart (l : List (Nat × Nat)) : List (Nat × Nat) :=
  l.foldr insertByStart []

/-- `setMinutes(0,0,0)`: floor to the hour. -/
def floorHour (t : Nat) : Nat := t / 60 * 60

/-- One step of the chronological walk: emit the gap before the busy interval
when it is at least `minDuration`, then move the cursor to the interval end
floored to the hour plus one hour.  (The source has no `max` with the previous
cursor, so a nested interval moves the cursor backwards.) -/
def slotStep (minDuration : Nat) (acc : List FreeSlot × Nat) (ev : Nat × Nat) :
    List FreeSlot × Nat :=
  let slots :=
    if acc.2 < ev.1 && decide (minDuration ≤ ev.1 - acc.2) then
      acc.1 ++ [{ startTime := acc.2, endTime := ev.1, duration := ev.1 - acc.2,
                  date := toISODateString (fromMinutes acc.2) }]
    else acc.1
  (slots, floorHour ev.2 + 60)

/-- `findFreeSlots(events, startDate, endDate, {minDuration})` with the search
window passed as resolved `minutesOf` instants. -/
def findFreeSlots (events : List CalUtilEvent) (now searchEnd : Nat)
    (minDuration : Nat := 120) : List FreeSlot :=
  let walked :=
    (sortByStart (normalizeForSlots events now)).foldl (slotStep minDuration)
      ([], floorHour now)
  if walked.2 < searchEnd && decide (minDuration ≤ searchEnd - walked.2) then
    walked.1 ++ [{ startTime := walked.2, endTime := searchEnd,
                   duration := searchEnd - walked.2,
                   date := toISODateString (fromMinutes walked.2) }]
  else walked.1

/-- `event.start?.dateTime || event.start?.date` (`||` on optional strings,
with the empty string falsy). -/
def jsOrStr (a b : Option String) : Option String :=
  match a with
  | some s => if s = "" then b else some s
  | none => b

structure GCalTime where
  dateTime : Option String := none
  date : Option String := none
deriving DecidableEq, Repr

/-- A Google Calendar API event as the wishlist route reads it; `endTime`
embeds the `end` field. -/
structure GCalEvent where
  start : Option GCalTime := none
  endTime : Option GCalTime := none
  summary : Option String := none
deriving DecidableEq, Repr

/-- `normalizeGoogleEvent(event)` from the wishlist routes: take
`start?.dateTime || start?.date` and likewise for the end, drop the event when
either is missing or unparseable, and otherwise KEEP it — the source comments
"All-day events have an end date equal to next day, keep as-is". -/
def normalizeGoogleEvent (event : GCalEvent) : Option CalUtilEvent :=
  let startRaw := jsOrStr (event.start.bind GCalTime.dateTime) (event.start.bind GCalTime.date)
  let endRaw := jsOrStr (event.endTime.bind GCalTime.dateTime) (event.endTime.bind GCalTime.date)
  if !(truthy startRaw) || !(truthy endRaw) then none
  else
    match jsParseDate (startRaw.getD ""), jsParseDate (endRaw.getD "") with
    | some sd, some ed =>
      some { date := toISOString sd
             endDate := some (toISOString ed)
             title := some (strOr event.summary "Calendar Event") }
    | _, _ => none

/-! ### Claim theorems for normalization and free slots -/

/-- Claim C9 (code bug): `normalizeEventsForConflictCheck` is NOT exception
free on heterogeneously shaped inputs.  A non-string, non-nullish `date` (a
number, or even a `Date` object — despite the dedicated `instanceof Date`
branch, which the guard makes unreachable) makes the all-day guard call
`.includes` on a non-string and throw a `TypeError`; a truthy string date that
is neither `YYYY-MM-DD` nor parseable throws a `RangeError` from
`toISOString()`.  In each case the exception propagates out of the map instead
of the entry being dropped with a diagnostic. -/
theorem normalizeEvents_throws_on_unparseable :
    normalizeOne { date := JVal.vNum 42, time := JVal.vStr "10:00" } =
      Except.error "TypeError: event.date.includes is not a function" ∧
    normalizeOne { date := JVal.vDate ⟨2024, 11, 22, 10, 0⟩ } =
      Except.error "TypeError: event.date.includes is not a function" ∧
    normalizeOne { date := JVal.vStr "garbage", time := JVal.vStr "10:00" } =
      Except.error "RangeError: Invalid time value" ∧
    normalizeEventsForConflictCheck [{ date := JVal.vNum 42, time := JVal.vStr "10:00" }] =
      Except.error "TypeError: event.date.includes is not a function" :=
  ⟨rfl, rfl, rfl, rfl⟩

/-- Claim C3 (amended): an all-day source event (`allDay` flag set, or a date
with no time component — no `T` in the date value — and no time field) is
excluded by `normalizeEventsForConflictCheck`, producing no normalized event
and never participating in conflict checking.  (The free-slot side of the
original claim fails; see the counterexample.) -/
theorem allDay_excluded_from_conflict_normalization (e : RawEvent)
    (h : e.allDay = true ∨
      (dateIncludesT e.date = Except.ok false ∧ jsTruthy e.time = false)) :
    normalizeOne e = Except.ok none ∧
    ∀ es : List RawEvent,
      normalizeEventsForConflictCheck (e :: es) = normalizeEventsForConflictCheck es := by
  have hone : normalizeOne e = Except.ok none := by
    rcases h with h | ⟨hd, ht⟩
    · simp [normalizeOne, h]
    · by_cases hAll : e.allDay
      · simp [normalizeOne, hAll]
      · simp [normalizeOne, hAll, hd, ht]
  refine ⟨hone, ?_⟩
  intro es
  unfold normalizeEventsForConflictCheck
  rw [List.mapM_cons, hone]
  cases hm : es.mapM normalizeOne with
  | error msg => rfl
  | ok bs => rfl

/-- Witness for the amended C3: an `allDay`-flagged event and a bare
`YYYY-MM-DD` date with no time are both dropped. -/
theorem allDay_excluded_from_conflict_normalization_witness :
    normalizeOne { allDay := true, date := JVal.vStr "2024-11-22T10:00" } = Except.ok none ∧
    normalizeOne { date := JVal.vStr "2024-11-22" } = Except.ok none :=
  ⟨(allDay_excluded_from_conflict_normalization
      { allDay := true, date := JVal.vStr "2024-11-22T10:00" } (Or.inl rfl)).1,
    (allDay_excluded_from_conflict_normalization
      { date := JVal.vStr "2024-11-22" } (Or.inr ⟨rfl, rfl⟩)).1⟩

/-- Counterexample to claim C3 as stated: an all-day Google Calendar event
(a `start.date` with no `dateTime`) survives `normalizeGoogleEvent` — the
source keeps it deliberately — and then participates in free-slot computation:
fed to `findFreeSlots` it blocks the whole day, which would otherwise be
returned as one free slot. -/
theorem allDay_participates_in_free_slots :
    normalizeGoogleEvent
        { start := some { date := some "2024-11-22" },
          endTime := some { date := some "2024-11-23" },
          summary := some "Holiday" } =
      some { date := "2024-11-22T00:00", endDate := some "2024-11-23T00:00",
             title := some "Holiday" } ∧
    findFreeSlots [{ date := "2024-11-22T00:00", endDate := some "2024-11-23T00:00",
                     title := some "Holiday" }]
        (minutesOf ⟨2024, 11, 22, 0, 0⟩) (minutesOf ⟨2024, 11, 23, 0, 0⟩) 60 = [] ∧
    findFreeSlots [] (minutesOf ⟨2024, 11, 22, 0, 0⟩) (minutesOf ⟨2024, 11, 23, 0, 0⟩) 60 =
      [{ startTime := minutesOf ⟨2024, 11, 22, 0, 0⟩, endTime := minutesOf ⟨2024, 11, 23, 0, 0⟩,
         duration := 1440, date := "2024-11-22" }] := by
  refine ⟨rfl, by decide, by decide⟩

/-- Claim C4 (code bug): because the walk advances the cursor to
`floor(interval.end) + 1h` with no `max` against the previous cursor, a busy
interval nested inside an earlier one drags the cursor backwards, and
`findFreeSlots` then returns a "free" slot that overlaps a busy interval.
Concretely: with busy 10:00-20:00 and nested 11:00-12:00 on 2024-11-22 and a
two-day window, the returned second slot starts at 13:00 — inside the
10:00-20:00 busy interval. -/
theorem findFreeSlots_emits_busy_overlap :
    findFreeSlots
        [{ date := "2024-11-22T10:00", endDate := some "2024-11-22T20:00" },
         { date := "2024-11-22T11:00", endDate := some "2024-11-22T12:00" }]
        (minutesOf ⟨2024, 11, 22, 0, 0⟩) (minutesOf ⟨2024, 11, 24, 0, 0⟩) 60 =
      [{ startTime := minutesOf ⟨2024, 11, 22, 0, 0⟩,
         endTime := minutesOf ⟨2024, 11, 22, 10, 0⟩,
         duration := 600, date := "2024-11-22" },
       { startTime := minutesOf ⟨2024, 11, 22, 13, 0⟩,
         endTime := minutesOf ⟨2024, 11, 24, 0, 0⟩,
         duration := 2100, date := "2024-11-22" }] ∧
    minutesOf ⟨2024, 11, 22, 13, 0⟩ < minutesOf ⟨2024, 11, 22, 20, 0⟩ ∧
    minutesOf ⟨2024, 11, 22, 10, 0⟩ < minutesOf ⟨2024, 11, 24, 0, 0⟩ := by
  refine ⟨by decide, by decide, by decide⟩

/-! ## Conflict checking (ConflictEngine) -/

/-- Modelled from the spec: the conflict checker implementation
(`server/services/calendarConflictService.js`, required by `routes/voice.js`)
is not among the available sources — only its callers are.  Per the spec, a
candidate and a normalized event carry `{date, time, duration}` with `time` a
local `HH:MM` string and `duration` in minutes. -/
structure SpecNormalizedEvent where
  date : String
  time : String
  duration : Nat
deriving DecidableEq, Repr

/-- Modelled from the spec: an `HH:MM` wall-clock time as minutes since
midnight (unparseable times default to midnight). -/
def hhmmToMinutes (s : String) : Nat :=
  match timeHMM? s with
  | some q => q.1 * 60 + q.2
  | none => 0

/-- Modelled from the spec: two half-open intervals `[start, start+duration)`
on the same calendar day conflict iff `startA < endB && startB < endA`. -/
def overlapsCandidate (candidate e : SpecNormalizedEvent) : Bool :=
  e.date == candidate.date &&
    decide (hhmmToMinutes candidate.time < hhmmToMinutes e.time + e.duration) &&
    decide (hhmmToMinutes e.time < hhmmToMinutes candidate.time + candidate.duration)

/-- Modelled from the spec: the result carries `hasConflict`, the first
`conflictingEvent`, and the complete list of overlapping events. -/
structure ConflictResult where
  hasConflict : Bool
  conflictingEvent : Option SpecNormalizedEvent
  conflicts : List SpecNormalizedEvent
deriving DecidableEq, Repr

/-- Modelled from the spec: `checkConflict(candidate, normalizedEvents)`. -/
def checkConflict (candidate : SpecNormalizedEvent)
    (events : List SpecNormalizedEvent) : ConflictResult :=
  { hasConflict := events.any (overlapsCandidate candidate)
    conflictingEvent := events.find? (overlapsCandidate candidate)
    conflicts := events.filter (overlapsCandidate candidate) }

/-- Claim C1: `checkConflict` reports a conflict exactly when some existing
event on the same calendar date has a half-open interval intersecting the
candidate interval (`startA < endB` and `startB < endA`); back-to-back events
never conflict; the two spec scenarios evaluate as documented. -/
theorem checkConflict_iff_overlap :
    (∀ (candidate : SpecNormalizedEvent) (events : List SpecNormalizedEvent),
      (checkConflict candidate events).hasConflict = true ↔
        ∃ e ∈ events, e.date = candidate.date ∧
          hhmmToMinutes candidate.time < hhmmToMinutes e.time + e.duration ∧
          hhmmToMinutes e.time < hhmmToMinutes candidate.time + candidate.duration) ∧
    (∀ candidate e : SpecNormalizedEvent,
      hhmmToMinutes candidate.time + candidate.duration = hhmmToMinutes e.time ∨
        hhmmToMinutes e.time + e.duration = hhmmToMinutes candidate.time →
      overlapsCandidate candidate e = false) ∧
    (checkConflict ⟨"2024-11-22", "14:00", 60⟩
        [⟨"2024-11-22", "14:30", 30⟩]).hasConflict = true ∧
    (checkConflict ⟨"2024-11-22", "14:00", 60⟩
        [⟨"2024-11-22", "15:00", 30⟩]).hasConflict = false := by
  refine ⟨?_, ?_, by decide, by decide⟩
  · intro candidate events
    simp [checkConflict, overlapsCandidate, List.any_eq_true, and_assoc]
  · intro candidate e h
    rcases h with h | h
    · have hB : ¬(hhmmToMinutes e.time < hhmmToMinutes candidate.time + candidate.duration) := by
        omega
      simp [overlapsCandidate, hB]
    · have hA : ¬(hhmmToMinutes candidate.time < hhmmToMinutes e.time + e.duration) := by
        omega
      simp [overlapsCandidate, hA]

/-- Witness for C1: the back-to-back case — a candidate ending 15:00 against
an existing event starting 15:00 does not overlap. -/
theorem checkConflict_iff_overlap_witness :
    overlapsCandidate ⟨"2024-11-22", "14:00", 60⟩ ⟨"2024-11-22", "15:00", 30⟩ = false :=
  checkConflict_iff_overlap.2.1 ⟨"2024-11-22", "14:00", 60⟩ ⟨"2024-11-22", "15:00", 30⟩
    (Or.inl (by decide))

end CalendarAgent
